import Mathlib

/-!
Verification development for the WorkdeskLM repository.

Strings are embedded as `List Char`; the JavaScript regular-expression
parsers of the UI are embedded as deterministic scanners (the regexes
involved never backtrack usefully, so the scans below implement exactly
the semantics of `RegExp.exec` / `String.split` / `String.match` on the
patterns of `src/ui/components/chat-message.tsx`).  The backend pipeline
(FastAPI service: Retriever, Evidence Gate, Citation Validator, Answer
Assembler) is not part of the checked-in sources; it is modelled from the
specification where a claim needs it.
-/

namespace Workdesk

/-- Characters of the literal `[DOC=` that opens a citation marker. -/
def docLit : List Char := "[DOC=".toList

/-- Characters of the literal `|PAGE=` inside a citation marker. -/
def pageLit : List Char := "|PAGE=".toList

/-- Characters of the literal `|CHUNK=` inside a citation marker. -/
def chunkLit : List Char := "|CHUNK=".toList

/-- Require the literal `lit` at the head of `s` and return the rest,
as a regex engine does for a literal subpattern. -/
def stripLit (lit s : List Char) : Option (List Char) :=
  if s.take lit.length = lit then some (s.drop lit.length) else none

/-- Greedy one-or-more character-class match (`[^|]+`, `\d+`): take the
maximal run of characters satisfying `q`; fail if it is empty.  Returns
the run and the remaining suffix.  For the character classes used by the
citation regexes the following literal can never be satisfied by a class
character, so the regex engine's backtracking can never shorten the run:
the greedy run is the unique possible match. -/
def grab (q : Char → Bool) (s : List Char) : Option (List Char × List Char) :=
  if (s.takeWhile q).isEmpty then none
  else some (s.takeWhile q, s.drop (s.takeWhile q).length)

/-- Attempt the regex `\[DOC=([^|]+)\|PAGE=(\d+)\|CHUNK=(\d+)\]`
(`citeRe` in `src/ui/components/chat-message.tsx`, line 18, and the
non-global copy used by `formatCitations`) anchored at the head of `s`.
On success returns the three capture groups and the match length. -/
def matchCite (s : List Char) : Option (List Char × List Char × List Char × Nat) :=
  (stripLit docLit s).bind fun r1 =>
  (grab (fun ch => decide (ch ≠ '|')) r1).bind fun dr =>
  (stripLit pageLit dr.2).bind fun r3 =>
  (grab Char.isDigit r3).bind fun pr =>
  (stripLit chunkLit pr.2).bind fun r5 =>
  (grab Char.isDigit r5).bind fun cr =>
  match cr.2 with
  | ']' :: _ => some (dr.1, pr.1, cr.1, 19 + dr.1.length + pr.1.length + cr.1.length)
  | _ => none

/-- The exact text of a citation marker token with the given field
contents: `[DOC=` ++ doc ++ `|PAGE=` ++ page ++ `|CHUNK=` ++ chunk ++ `]`. -/
def markerText (d p c : List Char) : List Char :=
  docLit ++ d ++ pageLit ++ p ++ chunkLit ++ c ++ [']']

/-- Well-formedness of the three capture groups of a citation marker:
`doc_name` non-empty and free of `|`, page and chunk non-empty strings
of decimal digits. -/
def wfFields (d p c : List Char) : Prop :=
  d ≠ [] ∧ '|' ∉ d ∧ p ≠ [] ∧ (∀ ch ∈ p, ch.isDigit) ∧ c ≠ [] ∧ (∀ ch ∈ c, ch.isDigit)

instance (d p c : List Char) : Decidable (wfFields d p c) := by
  unfold wfFields
  infer_instance

/-- Output node of the chat-message renderers: either a plain-text run or
an inline citation badge carrying the three capture groups. -/
inductive Seg where
  | txt : List Char → Seg
  | badge : List Char → List Char → List Char → Seg
deriving DecidableEq, Repr

/-- Scanner of `splitWithCites` (chat-message.tsx lines 20-48): repeated
`citeRe.exec` over the input, emitting the text between matches and a
badge per match.  `acc` holds (reversed) the characters accumulated since
the last emission.  The fuel argument only serves structural recursion:
every step consumes at least one character of `s` while spending exactly
one unit of fuel, so with initial fuel `s.length` (see `splitWithCites`)
the zero-fuel branch is only ever reached with `s = []`, where it agrees
with the ordinary end-of-input branch. -/
def scanCitesF : Nat → List Char → List Char → List Seg
  | 0, s, acc =>
    if (acc.reverse ++ s).isEmpty then [] else [Seg.txt (acc.reverse ++ s)]
  | fuel + 1, s, acc =>
    match matchCite s with
    | some (d, p, c, n) =>
        (if acc.isEmpty then ([] : List Seg) else [Seg.txt acc.reverse]) ++
          Seg.badge d p c :: scanCitesF fuel (s.drop n) []
    | none =>
      match s with
      | [] => if acc.isEmpty then [] else [Seg.txt acc.reverse]
      | ch :: rest => scanCitesF fuel rest (ch :: acc)

/-- `splitWithCites` of chat-message.tsx: split a text node into plain
runs and citation badges using `citeRe`. -/
def splitWithCites (s : List Char) : List Seg :=
  scanCitesF s.length s []

/-- Attempt the split regex `\[DOC=[^\]]+\]` used by `formatCitations`
(chat-message.tsx line 187) anchored at the head of `s`; returns the
match length. -/
def matchBracket (s : List Char) : Option Nat :=
  (stripLit docLit s).bind fun r1 =>
  (grab (fun ch => decide (ch ≠ ']')) r1).bind fun tr =>
  match tr.2 with
  | ']' :: _ => some (5 + tr.1.length + 1)
  | _ => none

/-- Scanner of `content.split(/(\[DOC=[^\]]+\])/g)`: the separator regex
has a single capture group covering the whole match, so the JS result
interleaves the (possibly empty) texts between matches with the matches
themselves, including a leading and a trailing piece.  Fuel as in
`scanCitesF`. -/
def splitDocF : Nat → List Char → List Char → List (List Char)
  | 0, s, acc => [acc.reverse ++ s]
  | fuel + 1, s, acc =>
    match matchBracket s with
    | some n => acc.reverse :: s.take n :: splitDocF fuel (s.drop n) []
    | none =>
      match s with
      | [] => [acc.reverse]
      | ch :: rest => splitDocF fuel rest (ch :: acc)

/-- The `content.split(/(\[DOC=[^\]]+\])/g)` call of `formatCitations`. -/
def splitDoc (s : List Char) : List (List Char) :=
  splitDocF s.length s []

/-- `part.match(/\[DOC=([^|]+)\|PAGE=(\d+)\|CHUNK=(\d+)\]/)`: leftmost
(unanchored) search for the citation pattern, returning the capture
groups of the first match. -/
def searchCite : List Char → Option (List Char × List Char × List Char)
  | [] => none
  | ch :: rest =>
    match matchCite (ch :: rest) with
    | some (d, p, c, _) => some (d, p, c)
    | none => searchCite rest

/-- `formatCitations` of chat-message.tsx (lines 185-205): split the
content on bracketed `[DOC=...]` tokens, then map every part to a badge
when the citation pattern matches somewhere inside it, and to the part
itself (plain text) otherwise. -/
def formatCitations (s : List Char) : List Seg :=
  (splitDoc s).map fun part =>
    match searchCite part with
    | some (d, p, c) => Seg.badge d p c
    | none => Seg.txt part

/-- Text underlying one rendered node: a badge stands for the marker
substring it was parsed from. -/
def segText : Seg → List Char
  | Seg.txt t => t
  | Seg.badge d p c => markerText d p c

/-- Concatenation, in order, of the text underlying every node. -/
def segFlat (l : List Seg) : List Char :=
  (l.map segText).flatten

/-- Parse a run of decimal digits as a natural number, most significant
digit first; leading zeros are tolerated (`01` and `1` both denote 1),
as the spec requires of the Citation Validator's numeric comparison. -/
def digitsToNat (l : List Char) : Nat :=
  l.foldl (fun a ch => 10 * a + (ch.toNat - 48)) 0

/-- Citation markers occurring in a text, in left-to-right order, with
the numeric fields parsed: the wire format of section 4.3 is bit-exact
between backend and UI, so the same scan as `splitWithCites` extracts
them. -/
def citeMarkers (s : List Char) : List (List Char × Nat × Nat) :=
  (splitWithCites s).filterMap fun seg =>
    match seg with
    | Seg.badge d p c => some (d, digitsToNat p, digitsToNat c)
    | Seg.txt _ => none

/-- A retained (retrieved) chunk, as referenced by `Citation` in
`src/ui/lib/types.ts`: identity triple plus id, score and text. -/
structure RChunk where
  chunk_id : List Char
  doc_name : List Char
  page_number : Nat
  chunk_index : Nat
  score : ℚ
  text : List Char
deriving DecidableEq, Repr

/-- `Citation` of `src/ui/lib/types.ts` (lines 49-56). -/
structure CitationE where
  chunk_id : List Char
  score : ℚ
  doc_name : List Char
  page_number : Nat
  chunk_index : Nat
  quote : List Char
deriving DecidableEq, Repr

/-- `Latency` of `src/ui/lib/types.ts` (lines 58-63). -/
structure LatencyE where
  embed_ms : Nat
  qdrant_ms : Nat
  llm_ms : Nat
  total_ms : Nat
deriving DecidableEq, Repr

/-- `ChatResponse` of `src/ui/lib/types.ts` (lines 65-72). -/
structure ChatResponseE where
  answer : List Char
  abstained : Bool
  mode_used : List Char
  model_used : List Char
  citations : List CitationE
  latency : LatencyE
deriving DecidableEq, Repr

/-- The fixed abstention sentence. -/
def abstainText : List Char :=
  "I don't know based on the provided documents.".toList

/-- The identity triple of a citation entry. -/
def citTriple (cit : CitationE) : List Char × Nat × Nat :=
  (cit.doc_name, cit.page_number, cit.chunk_index)

/-- Modelled from the spec: resolution of a parsed marker against the
retained chunk set by `(doc_name, page_number, chunk_index)` triple
(section 4.4 step 2); the backend Citation Validator is not among the
checked-in sources. -/
def resolveMarker (retained : List RChunk) (m : List Char × Nat × Nat) : Option RChunk :=
  retained.find? fun t =>
    decide (t.doc_name = m.1 ∧ t.page_number = m.2.1 ∧ t.chunk_index = m.2.2)

/-- Citation entry built from the retained chunk a marker resolved to,
attaching score and quoted excerpt (section 4.4 step 4). -/
def citeOf (t : RChunk) : CitationE :=
  ⟨t.chunk_id, t.score, t.doc_name, t.page_number, t.chunk_index, t.text⟩

/-- Deduplication keeping the first appearance of every element;
`seen` accumulates the elements already emitted. -/
def firstDedupAux [DecidableEq α] (seen : List α) : List α → List α
  | [] => []
  | x :: xs =>
    if x ∈ seen then firstDedupAux seen xs
    else x :: firstDedupAux (x :: seen) xs

/-- Deduplication in order of first appearance (section 4.4 step 4). -/
def firstDedup [DecidableEq α] (l : List α) : List α :=
  firstDedupAux [] l

/-- Output triple of the Citation Validator: cleaned answer, citations,
abstention flag (section 4.4 contract). -/
structure VOut where
  answer : List Char
  citations : List CitationE
  abstained : Bool
deriving DecidableEq, Repr

/-- The abstention output: fixed text, no citations, abstained. -/
def abstainOut : VOut := ⟨abstainText, [], true⟩

/-- Modelled from the spec: the Citation Validator / Repairer of
section 4.4, whose backend implementation is not among the checked-in
sources.  Scans the completion for markers (step 1), resolves each
against the retained set (step 2); if the completion is exactly the
fixed abstention sentence, or any marker is invalid, or no marker is
present, the response is downgraded to abstention (step 3); otherwise
the markers are deduplicated in order of first appearance into the
citations list and the answer keeps the markers in place (steps 4-5). -/
def validateCitations (completion : List Char) (retained : List RChunk) : VOut :=
  if completion = abstainText then abstainOut
  else if (citeMarkers completion).any (fun m => (resolveMarker retained m).isNone) then
    abstainOut
  else if (citeMarkers completion).isEmpty then abstainOut
  else
    ⟨completion,
     (firstDedup (citeMarkers completion)).filterMap
       (fun m => (resolveMarker retained m).map citeOf),
     false⟩

/-- Modelled from the spec: assembly of the final `ChatResponse` from the
retained retrieval result and the model completion (sections 4.2, 4.4,
4.5; the backend pipeline is not among the checked-in sources).  An empty
retrieval result short-circuits at the Evidence Gate: abstention response
with `llm_ms = 0` and only the embed/search timings, the language model
never being consulted.  Otherwise the completion goes through the
Citation Validator and the assembler threads timings and model
identifiers through. -/
def runPipeline (retained : List RChunk) (completion : List Char)
    (modeUsed modelUsed : List Char) (embedMs qdrantMs llmMs : Nat) : ChatResponseE :=
  if retained.isEmpty then
    ⟨abstainText, true, modeUsed, modelUsed, [],
     ⟨embedMs, qdrantMs, 0, embedMs + qdrantMs⟩⟩
  else
    ⟨(validateCitations completion retained).answer,
     (validateCitations completion retained).abstained,
     modeUsed, modelUsed,
     (validateCitations completion retained).citations,
     ⟨embedMs, qdrantMs, llmMs, embedMs + qdrantMs + llmMs⟩⟩

/-- Error kinds of section 7 that propagate as error responses. -/
inductive RetrievalError where
  | invalidInput
  | upstreamUnavailable
deriving DecidableEq, Repr

/-- Behaviour of the external vector index on one query: a timeout or
failure, or the scored neighbours it returned (an empty list when no
chunks exist in the requested scope). -/
inductive SearchOutcome where
  | failure
  | results : List RChunk → SearchOutcome

/-- Modelled from the spec: the Retriever of section 4.1, whose backend
implementation is not among the checked-in sources.  An empty question
fails with `InvalidInput` before anything else; a vector-index failure
or timeout fails with `UpstreamUnavailable`; otherwise the neighbours
below the minimum-score threshold are discarded and the rest returned
(an empty result is a success, not an error). -/
def retrieve (question : List Char) (outcome : SearchOutcome) (minScore : ℚ) :
    Except RetrievalError (List RChunk) :=
  if question.isEmpty then .error .invalidInput
  else
    match outcome with
    | .failure => .error .upstreamUnavailable
    | .results rs => .ok (rs.filter fun r => decide (minScore ≤ r.score))

/-- Leading and trailing whitespace removal, as `String.prototype.trim`. -/
def jsTrim (s : List Char) : List Char :=
  ((s.dropWhile Char.isWhitespace).reverse.dropWhile Char.isWhitespace).reverse

/-- Decimal digits of a number, as JS string interpolation renders it. -/
def natToChars (n : Nat) : List Char :=
  Nat.toDigits 10 n

/-- The `ApiError` of `src/ui/lib/api.ts`: HTTP status (0 for network
errors), message, optional raw body. -/
structure ApiErrorE where
  status : Nat
  message : List Char
  body : Option (List Char)
deriving DecidableEq, Repr

/-- What `fetch` produced: a thrown network error (API down, DNS, CORS,
...) with its stringified reason, or a response with status, status text
and the outcome of reading its body (`none` when reading throws). -/
inductive FetchOutcome where
  | netError : List Char → FetchOutcome
  | resp : Nat → List Char → Option (List Char) → FetchOutcome

/-- `safeReadText` of api.ts (lines 35-41): body text, or the empty
string when reading throws. -/
def safeReadText : Option (List Char) → List Char
  | some t => t
  | none => []

/-- Successful outcome of `request`: the caller declined JSON
(`expectJson = false`, the JS returns `undefined`), the body was empty
(the JS returns `\x7b\x7d`), or the parsed JSON value. -/
inductive ReqOk (T : Type) where
  | skipped
  | emptyObj
  | parsed : T → ReqOk T
deriving DecidableEq

/-- The `request` helper of api.ts (lines 50-90), over an abstract JSON
parse function standing for `JSON.parse` (`none` = parse throws).  Every
failure is an `ApiError`; the function is total, so no other exception
can escape. -/
def request (parse : List Char → Option T) (path : List Char)
    (expectJson : Bool) (outcome : FetchOutcome) : Except ApiErrorE (ReqOk T) :=
  match outcome with
  | .netError e =>
      .error ⟨0, "Network error calling ".toList ++ path ++ ": ".toList ++ e, none⟩
  | .resp status statusText bodyRead =>
    if 200 ≤ status ∧ status ≤ 299 then
      if expectJson then
        if (safeReadText bodyRead).isEmpty then .ok .emptyObj
        else
          match parse (safeReadText bodyRead) with
          | some v => .ok (.parsed v)
          | none =>
              .error ⟨status, "Invalid JSON from ".toList ++ path,
                some ((safeReadText bodyRead).take 2000)⟩
      else .ok .skipped
    else
      .error ⟨status,
        if (jsTrim (safeReadText bodyRead)).isEmpty then
          jsTrim ("HTTP error ".toList ++ natToChars status ++ [' '] ++ statusText)
        else jsTrim (safeReadText bodyRead),
        some (safeReadText bodyRead)⟩

/-- `handleSubmit` of `src/ui/components/chat-input.tsx` (lines 48-60):
returns the question passed to `onSend`, or `none` when no send happens
(blank input, a send already in flight, or the control disabled). -/
def handleSubmit (input : List Char) (sending disabled : Bool) : Option (List Char) :=
  if (jsTrim input).isEmpty || sending || disabled then none
  else some (jsTrim input)

/-- `next` of the flashcards viewer (`src/ui/components/flashcards/viewer.tsx`
lines 98-102): advance the index modulo the card count; no-op when there
are no cards. -/
def nextCard (len i : Nat) : Nat :=
  if len = 0 then i else (i + 1) % len

/-- `prev` of the flashcards viewer (lines 92-96): decrease the index
modulo the card count (the JS computes `(i - 1 + len) % len` over
integers, which equals `(i + len - 1) % len` over naturals); no-op when
there are no cards. -/
def prevCard (len i : Nat) : Nat :=
  if len = 0 then i else (i + len - 1) % len

theorem stripLit_eq {lit s r : List Char} (h : stripLit lit s = some r) :
    s = lit ++ r := by
  unfold stripLit at h
  split at h
  · rename_i hTake
    rw [Option.some.injEq] at h
    subst h
    conv_lhs => rw [← List.take_append_drop lit.length s]
    rw [hTake]
  · exact absurd h (by simp)

theorem stripLit_pre (lit r : List Char) : stripLit lit (lit ++ r) = some r := by
  unfold stripLit
  rw [List.take_left, List.drop_left, if_pos rfl]

theorem grab_eq {q : Char → Bool} {s t r : List Char}
    (h : grab q s = some (t, r)) :
    s = t ++ r ∧ t ≠ [] ∧ ∀ ch ∈ t, q ch = true := by
  unfold grab at h
  split at h
  · exact absurd h (by simp)
  · rename_i hne
    rw [Option.some.injEq, Prod.mk.injEq] at h
    obtain ⟨ht, hr⟩ := h
    have key : ∀ (a b : List Char), s = a ++ b → List.drop a.length s = b := by
      intro a b hab
      rw [hab, List.drop_left]
    have hdrop : s.drop (s.takeWhile q).length = s.dropWhile q :=
      key (s.takeWhile q) (s.dropWhile q) (List.takeWhile_append_dropWhile q s).symm
    refine ⟨?_, ?_, ?_⟩
    · rw [← ht, ← hr, hdrop]
      exact (List.takeWhile_append_dropWhile q s).symm
    · rw [← ht]
      simpa [List.isEmpty_iff] using hne
    · intro ch hch
      rw [← ht] at hch
      exact List.mem_takeWhile_imp hch

theorem grab_app {q : Char → Bool} {t : List Char} (x : Char) (r : List Char)
    (hall : ∀ ch ∈ t, q ch = true) (hne : t ≠ []) (hx : q x = false) :
    grab q (t ++ x :: r) = some (t, x :: r) := by
  unfold grab
  have htake : (t ++ x :: r).takeWhile q = t := by
    rw [List.takeWhile_append_of_pos hall, List.takeWhile_cons_of_neg (by simp [hx]),
      List.append_nil]
  rw [htake, List.drop_left, if_neg (by simpa [List.isEmpty_iff] using hne)]

theorem matchCite_sound {s d p c : List Char} {n : Nat}
    (h : matchCite s = some (d, p, c, n)) :
    s = markerText d p c ++ s.drop n ∧
      n = 19 + d.length + p.length + c.length ∧ wfFields d p c := by
  unfold matchCite at h
  cases h1 : stripLit docLit s with
  | none => rw [h1] at h; simp at h
  | some r1 =>
  rw [h1, Option.some_bind] at h
  cases h2 : grab (fun ch => decide (ch ≠ '|')) r1 with
  | none => rw [h2] at h; simp at h
  | some dr =>
  obtain ⟨dv, r2⟩ := dr
  rw [h2, Option.some_bind] at h
  cases h3 : stripLit pageLit r2 with
  | none => rw [h3] at h; simp at h
  | some r3 =>
  rw [h3, Option.some_bind] at h
  cases h4 : grab Char.isDigit r3 with
  | none => rw [h4] at h; simp at h
  | some pr =>
  obtain ⟨pv, r4⟩ := pr
  rw [h4, Option.some_bind] at h
  cases h5 : stripLit chunkLit r4 with
  | none => rw [h5] at h; simp at h
  | some r5 =>
  rw [h5, Option.some_bind] at h
  cases h6 : grab Char.isDigit r5 with
  | none => rw [h6] at h; simp at h
  | some cr =>
  obtain ⟨cv, r6⟩ := cr
  rw [h6, Option.some_bind] at h
  split at h
  · rename_i tail0 heq0
    dsimp only at heq0
    simp only [Option.some.injEq, Prod.mk.injEq] at h
    obtain ⟨hdd, hpp, hcc, hnn⟩ := h
    obtain ⟨e2, hdne, hdq⟩ := grab_eq h2
    obtain ⟨e4, hpne, hpq⟩ := grab_eq h4
    obtain ⟨e6, hcne, hcq⟩ := grab_eq h6
    subst hdd; subst hpp; subst hcc; subst hnn
    have es : s = markerText dv pv cv ++ tail0 := by
      rw [stripLit_eq h1, e2, stripLit_eq h3, e4, stripLit_eq h5, e6, heq0]
      simp [markerText, List.append_assoc]
    have hlen : (markerText dv pv cv).length = 19 + dv.length + pv.length + cv.length := by
      have e0 : docLit.length = 5 := rfl
      have e1 : pageLit.length = 6 := rfl
      have e7 : chunkLit.length = 7 := rfl
      simp [markerText, e0, e1, e7]
      omega
    refine ⟨?_, rfl, hdne, ?_, hpne, hpq, hcne, hcq⟩
    · have hdrop : s.drop (19 + dv.length + pv.length + cv.length) = tail0 := by
        rw [es]
        exact List.drop_left' hlen
      rw [hdrop]
      exact es
    · intro hmem
      have h8 := hdq '|' hmem
      simp at h8
  · simp at h

theorem stripLit_pre' {lit r s : List Char} (h : s = lit ++ r) :
    stripLit lit s = some r := by
  rw [h]
  exact stripLit_pre lit r

theorem markerText_length (d p c : List Char) :
    (markerText d p c).length = 19 + d.length + p.length + c.length := by
  have e0 : docLit.length = 5 := rfl
  have e1 : pageLit.length = 6 := rfl
  have e7 : chunkLit.length = 7 := rfl
  simp [markerText, e0, e1, e7]
  omega

theorem digit_ne_pipe {ch : Char} (h : ch.isDigit = true) :
    decide (ch ≠ '|') = true := by
  by_cases he : ch = '|'
  · subst he
    exact absurd h (by decide)
  · exact decide_eq_true he

theorem digit_ne_rbracket {ch : Char} (h : ch.isDigit = true) :
    decide (ch ≠ ']') = true := by
  by_cases he : ch = ']'
  · subst he
    exact absurd h (by decide)
  · exact decide_eq_true he

theorem matchCite_complete {d p c : List Char} (hwf : wfFields d p c) (rest : List Char) :
    matchCite (markerText d p c ++ rest) =
      some (d, p, c, 19 + d.length + p.length + c.length) := by
  obtain ⟨hdne, hdpipe, hpne, hpdig, hcne, hcdig⟩ := hwf
  have hdq : ∀ ch ∈ d, decide (ch ≠ '|') = true := by
    intro ch hch
    exact decide_eq_true (fun he => hdpipe (he ▸ hch))
  have e1 : markerText d p c ++ rest =
      docLit ++ (d ++ '|' ::
        ("PAGE=".toList ++ (p ++ '|' :: ("CHUNK=".toList ++ (c ++ ']' :: rest))))) := by
    simp only [markerText, List.append_assoc, List.cons_append, List.singleton_append]
    rfl
  have gd :
      grab (fun ch => decide (ch ≠ '|'))
        (d ++ '|' :: ("PAGE=".toList ++ (p ++ '|' :: ("CHUNK=".toList ++ (c ++ ']' :: rest))))) =
        some (d, '|' :: ("PAGE=".toList ++ (p ++ '|' :: ("CHUNK=".toList ++ (c ++ ']' :: rest))))) :=
    grab_app '|' _ hdq hdne (by decide)
  have sp1 :
      stripLit pageLit
        ('|' :: ("PAGE=".toList ++ (p ++ '|' :: ("CHUNK=".toList ++ (c ++ ']' :: rest))))) =
        some (p ++ '|' :: ("CHUNK=".toList ++ (c ++ ']' :: rest))) :=
    stripLit_pre' rfl
  have gp :
      grab Char.isDigit (p ++ '|' :: ("CHUNK=".toList ++ (c ++ ']' :: rest))) =
        some (p, '|' :: ("CHUNK=".toList ++ (c ++ ']' :: rest))) :=
    grab_app '|' _ hpdig hpne (by decide)
  have sc1 :
      stripLit chunkLit ('|' :: ("CHUNK=".toList ++ (c ++ ']' :: rest))) =
        some (c ++ ']' :: rest) :=
    stripLit_pre' rfl
  have gc : grab Char.isDigit (c ++ ']' :: rest) = some (c, ']' :: rest) :=
    grab_app ']' _ hcdig hcne (by decide)
  rw [e1]
  unfold matchCite
  rw [stripLit_pre]
  simp only [Option.some_bind]
  rw [gd]
  simp only [Option.some_bind]
  rw [sp1]
  simp only [Option.some_bind]
  rw [gp]
  simp only [Option.some_bind]
  rw [sc1]
  simp only [Option.some_bind]
  rw [gc]
  simp only [Option.some_bind]

theorem matchCite_nil : matchCite [] = none := rfl

theorem scanF_nil : ∀ fuel : Nat, scanCitesF fuel [] [] = [] := by
  intro fuel
  cases fuel <;> rfl

/-- Flattening one node. -/
theorem segFlat_cons (x : Seg) (l : List Seg) :
    segFlat (x :: l) = segText x ++ segFlat l := by
  simp [segFlat]

/-- Flattening distributes over appending node lists. -/
theorem segFlat_append (l1 l2 : List Seg) :
    segFlat (l1 ++ l2) = segFlat l1 ++ segFlat l2 := by
  simp [segFlat]

/-- Every state of the `splitWithCites` scan flattens back to the pending
text plus the unprocessed input. -/
theorem scanF_flat : ∀ (fuel : Nat) (s acc : List Char),
    segFlat (scanCitesF fuel s acc) = acc.reverse ++ s := by
  intro fuel
  induction fuel with
  | zero =>
    intro s acc
    simp only [scanCitesF]
    split
    · rename_i he
      rw [List.isEmpty_iff] at he
      simp [segFlat, he]
    · simp [segFlat, segText]
  | succ fuel ih =>
    intro s acc
    simp only [scanCitesF]
    cases hm : matchCite s with
    | some res =>
      obtain ⟨d, p, c, n⟩ := res
      obtain ⟨hs, hn, hwf⟩ := matchCite_sound hm
      rw [segFlat_append, segFlat_cons, ih (s.drop n) []]
      by_cases hacc : acc.isEmpty
      · rw [List.isEmpty_iff] at hacc
        subst hacc
        simpa [segFlat, segText] using hs.symm
      · rw [if_neg hacc]
        conv_rhs => rw [hs]
        simp [segFlat, segText]
    | none =>
      cases s with
      | nil =>
        by_cases hacc : acc.isEmpty
        · rw [List.isEmpty_iff] at hacc
          simp [hacc, segFlat]
        · have hne : acc ≠ [] := fun he => hacc (by simp [he])
          simp [hne, segFlat, segText]
      | cons ch rest =>
        rw [ih rest (ch :: acc)]
        simp

/-- Every badge the `splitWithCites` scan ever emits has well-formed
capture groups. -/
theorem scanF_badge_wf : ∀ (fuel : Nat) (s acc d p c : List Char),
    Seg.badge d p c ∈ scanCitesF fuel s acc → wfFields d p c := by
  intro fuel
  induction fuel with
  | zero =>
    intro s acc d p c hmem
    simp only [scanCitesF] at hmem
    split at hmem <;> simp at hmem
  | succ fuel ih =>
    intro s acc d p c hmem
    simp only [scanCitesF] at hmem
    cases hm : matchCite s with
    | some res =>
      obtain ⟨d0, p0, c0, n0⟩ := res
      rw [hm] at hmem
      rcases List.mem_append.mp hmem with h1 | h2
      · split at h1 <;> simp at h1
      · rcases List.mem_cons.mp h2 with h3 | h4
        · obtain ⟨hd0, hp0, hc0⟩ := Seg.badge.inj h3.symm
          subst hd0; subst hp0; subst hc0
          exact (matchCite_sound hm).2.2
        · exact ih _ _ _ _ _ h4
    | none =>
      rw [hm] at hmem
      cases s with
      | nil =>
        dsimp only at hmem
        split at hmem <;> simp at hmem
      | cons ch rest =>
        dsimp only at hmem
        exact ih _ _ _ _ _ hmem

/-- A lone well-formed marker token is parsed by `splitWithCites` as a
single badge carrying exactly its fields. -/
theorem splitWithCites_marker {d p c : List Char} (hwf : wfFields d p c) :
    splitWithCites (markerText d p c) = [Seg.badge d p c] := by
  unfold splitWithCites
  have hmc : matchCite (markerText d p c) =
      some (d, p, c, 19 + d.length + p.length + c.length) := by
    have h := matchCite_complete hwf []
    rwa [List.append_nil] at h
  obtain ⟨f, hf⟩ : ∃ f, (markerText d p c).length = f + 1 := by
    rw [markerText_length]
    exact ⟨18 + d.length + p.length + c.length, by omega⟩
  rw [hf]
  simp only [scanCitesF]
  rw [hmc]
  have hdrop : (markerText d p c).drop (19 + d.length + p.length + c.length) = [] := by
    rw [← markerText_length]
    exact List.drop_length _
  simp [hdrop, scanF_nil]

theorem searchCite_none_head {s : List Char} (h : searchCite s = none) :
    matchCite s = none := by
  cases s with
  | nil => exact matchCite_nil
  | cons ch rest =>
    unfold searchCite at h
    cases hm : matchCite (ch :: rest) with
    | some res =>
      obtain ⟨d, p, c, n⟩ := res
      rw [hm] at h
      simp at h
    | none => rfl

theorem searchCite_none_tail {ch : Char} {rest : List Char}
    (h : searchCite (ch :: rest) = none) : searchCite rest = none := by
  unfold searchCite at h
  cases hm : matchCite (ch :: rest) with
  | some res =>
    obtain ⟨d, p, c, n⟩ := res
    rw [hm] at h
    simp at h
  | none =>
    rw [hm] at h
    exact h

/-- On input containing no occurrence of the citation pattern, the
`splitWithCites` scan returns everything as one plain-text node. -/
theorem scanF_no_match : ∀ (fuel : Nat) (s acc : List Char), searchCite s = none →
    scanCitesF fuel s acc =
      if (acc.reverse ++ s).isEmpty then [] else [Seg.txt (acc.reverse ++ s)] := by
  intro fuel
  induction fuel with
  | zero =>
    intro s acc _
    simp only [scanCitesF]
  | succ fuel ih =>
    intro s acc h
    simp only [scanCitesF]
    rw [searchCite_none_head h]
    cases s with
    | nil => simp
    | cons ch rest =>
      dsimp only
      rw [ih rest (ch :: acc) (searchCite_none_tail h)]
      simp

theorem searchCite_sound : ∀ {s d p c : List Char},
    searchCite s = some (d, p, c) → wfFields d p c := by
  intro s
  induction s with
  | nil => intro d p c h; simp [searchCite] at h
  | cons ch rest ih =>
    intro d p c h
    unfold searchCite at h
    cases hm : matchCite (ch :: rest) with
    | some res =>
      obtain ⟨d0, p0, c0, n0⟩ := res
      rw [hm] at h
      simp only [Option.some.injEq, Prod.mk.injEq] at h
      obtain ⟨hd0, hp0, hc0⟩ := h
      subst hd0; subst hp0; subst hc0
      exact (matchCite_sound hm).2.2
    | none =>
      rw [hm] at h
      exact ih h

theorem searchCite_of_matchCite {s d p c : List Char} {n : Nat}
    (h : matchCite s = some (d, p, c, n)) : searchCite s = some (d, p, c) := by
  cases s with
  | nil => rw [matchCite_nil] at h; exact absurd h (by simp)
  | cons ch rest =>
    unfold searchCite
    rw [h]

/-- On a well-formed marker whose document name is also free of `]`, the
split regex of `formatCitations` matches the whole token. -/
theorem matchBracket_marker {d p c : List Char} (hwf : wfFields d p c)
    (hdrb : ']' ∉ d) :
    matchBracket (markerText d p c) = some (19 + d.length + p.length + c.length) := by
  obtain ⟨hdne, _, _, hpdig, _, hcdig⟩ := hwf
  have e1 : markerText d p c =
      docLit ++ ((d ++ (pageLit ++ (p ++ (chunkLit ++ c)))) ++ ']' :: ([] : List Char)) := by
    simp [markerText, List.append_assoc]
  have hall : ∀ ch ∈ d ++ (pageLit ++ (p ++ (chunkLit ++ c))), decide (ch ≠ ']') = true := by
    have hpl : ∀ ch ∈ pageLit, decide (ch ≠ ']') = true := by decide
    have hcl : ∀ ch ∈ chunkLit, decide (ch ≠ ']') = true := by decide
    intro ch hch
    simp only [List.mem_append] at hch
    rcases hch with hd | hpg | hp | hck | hc
    · exact decide_eq_true (fun he => hdrb (he ▸ hd))
    · exact hpl ch hpg
    · exact digit_ne_rbracket (hpdig ch hp)
    · exact hcl ch hck
    · exact digit_ne_rbracket (hcdig ch hc)
  have hTne : d ++ (pageLit ++ (p ++ (chunkLit ++ c))) ≠ [] := by
    intro he
    exact hdne (List.append_eq_nil.mp he).1
  rw [e1]
  unfold matchBracket
  rw [stripLit_pre]
  simp only [Option.some_bind]
  rw [grab_app ']' [] hall hTne (by decide)]
  simp only [Option.some_bind]
  have e0 : pageLit.length = 6 := rfl
  have e7 : chunkLit.length = 7 := rfl
  simp [e0, e7]
  omega

theorem splitDocF_nil : ∀ fuel : Nat, splitDocF fuel [] [] = [[]] := by
  intro fuel
  cases fuel <;> rfl

/-- A lone well-formed marker token with `]`-free document name is split
by the `formatCitations` split regex into an empty text, the token and an
empty text. -/
theorem splitDoc_marker {d p c : List Char} (hwf : wfFields d p c)
    (hdrb : ']' ∉ d) :
    splitDoc (markerText d p c) = [[], markerText d p c, []] := by
  unfold splitDoc
  obtain ⟨f, hf⟩ : ∃ f, (markerText d p c).length = f + 1 := by
    rw [markerText_length]
    exact ⟨18 + d.length + p.length + c.length, by omega⟩
  rw [hf]
  simp only [splitDocF]
  rw [matchBracket_marker hwf hdrb]
  have htake : (markerText d p c).take (19 + d.length + p.length + c.length) =
      markerText d p c := by
    rw [← markerText_length]
    exact List.take_length _
  have hdrop : (markerText d p c).drop (19 + d.length + p.length + c.length) = [] := by
    rw [← markerText_length]
    exact List.drop_length _
  simp [htake, hdrop, splitDocF_nil]

/-- Every badge `formatCitations` emits has well-formed capture groups. -/
theorem formatCitations_badge_wf {s d p c : List Char}
    (h : Seg.badge d p c ∈ formatCitations s) : wfFields d p c := by
  unfold formatCitations at h
  rcases List.mem_map.mp h with ⟨part, _, hpart⟩
  cases hs : searchCite part with
  | some res =>
    obtain ⟨d0, p0, c0⟩ := res
    rw [hs] at hpart
    dsimp only at hpart
    obtain ⟨hd0, hp0, hc0⟩ := Seg.badge.inj hpart
    subst hd0; subst hp0; subst hc0
    exact searchCite_sound hs
  | none =>
    rw [hs] at hpart
    simp at hpart

/-- A lone well-formed marker token with `]`-free document name is
rendered by `formatCitations` as its badge between two empty texts. -/
theorem formatCitations_marker {d p c : List Char} (hwf : wfFields d p c)
    (hdrb : ']' ∉ d) :
    formatCitations (markerText d p c) = [Seg.txt [], Seg.badge d p c, Seg.txt []] := by
  unfold formatCitations
  rw [splitDoc_marker hwf hdrb]
  have hmc : matchCite (markerText d p c) =
      some (d, p, c, 19 + d.length + p.length + c.length) := by
    have h := matchCite_complete hwf []
    rwa [List.append_nil] at h
  have hsc : searchCite (markerText d p c) = some (d, p, c) :=
    searchCite_of_matchCite hmc
  simp only [List.map_cons, List.map_nil]
  rw [hsc]
  rfl

/-- C8: `splitWithCites` partitions its input without loss: concatenating,
in order, the plain-text segments it emits and the marker substrings
underlying the badge nodes yields exactly the input string; consequently
every badge corresponds to an occurrence of the marker pattern in the
input. -/
theorem C8_splitWithCites_lossless :
    (∀ s : List Char, segFlat (splitWithCites s) = s) ∧
    (∀ s d p c : List Char, Seg.badge d p c ∈ splitWithCites s →
      ∃ u v, s = u ++ markerText d p c ++ v) := by
  have hflat : ∀ s : List Char, segFlat (splitWithCites s) = s := by
    intro s
    unfold splitWithCites
    simpa using scanF_flat s.length s []
  refine ⟨hflat, ?_⟩
  intro s d p c hmem
  obtain ⟨l1, l2, hsplit⟩ := List.append_of_mem hmem
  refine ⟨segFlat l1, segFlat l2, ?_⟩
  conv_lhs => rw [← hflat s]
  rw [hsplit, segFlat_append, segFlat_cons]
  simp [segText, List.append_assoc]

/-- C8 witness: the identity and the occurrence property at a concrete
message containing one marker. -/
theorem C8_splitWithCites_lossless_witness :
    segFlat (splitWithCites ("see [DOC=a.pdf|PAGE=2|CHUNK=1] ok".toList)) =
      "see [DOC=a.pdf|PAGE=2|CHUNK=1] ok".toList ∧
    ∃ u v, "see [DOC=a.pdf|PAGE=2|CHUNK=1] ok".toList =
      u ++ markerText ("a.pdf".toList) ("2".toList) ("1".toList) ++ v :=
  ⟨C8_splitWithCites_lossless.1 _,
   C8_splitWithCites_lossless.2 _ _ _ _ (by decide)⟩

/-- C4 fails as stated: `citeRe` admits `]` inside its document-name
group, so the token text `[DOC=a]b|PAGE=1|CHUNK=2]` is recognized by
`splitWithCites` as a single citation marker whose extracted doc name
`a]b` contains `]` before the closing bracket, while `formatCitations`
renders the very same text entirely as plain text: the claimed
characterization (no `]` before the closing bracket) is wrong for
`citeRe`, and the two parsers do not agree on one marker grammar. -/
theorem C4_counterexample :
    splitWithCites ("[DOC=a]b|PAGE=1|CHUNK=2]".toList) =
      [Seg.badge ("a]b".toList) ("1".toList) ("2".toList)] ∧
    ']' ∈ "a]b".toList ∧
    formatCitations ("[DOC=a]b|PAGE=1|CHUNK=2]".toList) =
      [Seg.txt [], Seg.txt ("[DOC=a]".toList), Seg.txt ("b|PAGE=1|CHUNK=2]".toList)] := by
  refine ⟨by decide, by decide, by decide⟩

/-- C4 (amended): a substring is recognized by the `citeRe` scan of
`splitWithCites` as a citation marker exactly when it has the form
`[DOC=<doc_name>|PAGE=<page>|CHUNK=<chunk>]` with `doc_name` non-empty
and free of `|` (it may contain `]`), and `page`, `chunk` non-empty
digit strings, the badge carrying exactly those fields; `formatCitations`
also only ever emits badges with such fields, renders a lone marker whose
doc name is additionally `]`-free as its badge, and an input with no
occurrence of the pattern is passed through by `splitWithCites` as plain
text. -/
theorem C4_marker_recognition :
    (∀ s d p c : List Char, Seg.badge d p c ∈ splitWithCites s → wfFields d p c) ∧
    (∀ d p c : List Char, wfFields d p c →
      splitWithCites (markerText d p c) = [Seg.badge d p c]) ∧
    (∀ s d p c : List Char, Seg.badge d p c ∈ formatCitations s → wfFields d p c) ∧
    (∀ d p c : List Char, wfFields d p c → ']' ∉ d →
      formatCitations (markerText d p c) = [Seg.txt [], Seg.badge d p c, Seg.txt []]) ∧
    (∀ s : List Char, s ≠ [] → searchCite s = none → splitWithCites s = [Seg.txt s]) := by
  refine ⟨?_, ?_, ?_, ?_, ?_⟩
  · intro s d p c h
    exact scanF_badge_wf s.length s [] d p c h
  · intro d p c hwf
    exact splitWithCites_marker hwf
  · intro s d p c h
    exact formatCitations_badge_wf h
  · intro d p c hwf hdrb
    exact formatCitations_marker hwf hdrb
  · intro s hne h
    unfold splitWithCites
    rw [scanF_no_match s.length s [] h]
    simp [hne]

/-- C4 witness: the amended statement applied at a concrete well-formed
marker and at a markerless string. -/
theorem C4_marker_recognition_witness :
    splitWithCites (markerText ("a.pdf".toList) ("2".toList) ("1".toList)) =
      [Seg.badge ("a.pdf".toList) ("2".toList) ("1".toList)] ∧
    formatCitations (markerText ("a.pdf".toList) ("2".toList) ("1".toList)) =
      [Seg.txt [], Seg.badge ("a.pdf".toList) ("2".toList) ("1".toList), Seg.txt []] ∧
    splitWithCites ("hello".toList) = [Seg.txt ("hello".toList)] :=
  ⟨C4_marker_recognition.2.1 _ _ _ (by decide),
   C4_marker_recognition.2.2.2.1 _ _ _ (by decide) (by decide),
   C4_marker_recognition.2.2.2.2 _ (by decide) (by decide)⟩

theorem mem_firstDedupAux [DecidableEq α] :
    ∀ (l seen : List α) (x : α), x ∈ firstDedupAux seen l ↔ x ∈ l ∧ x ∉ seen := by
  intro l
  induction l with
  | nil => intro seen x; simp [firstDedupAux]
  | cons a l ih =>
    intro seen x
    unfold firstDedupAux
    by_cases ha : a ∈ seen
    · rw [if_pos ha, ih]
      constructor
      · rintro ⟨hx, hs⟩
        exact ⟨List.mem_cons_of_mem _ hx, hs⟩
      · rintro ⟨hx, hs⟩
        rcases List.mem_cons.mp hx with he | hm
        · exact absurd (he ▸ ha) hs
        · exact ⟨hm, hs⟩
    · rw [if_neg ha]
      constructor
      · intro hx
        rcases List.mem_cons.mp hx with he | hm
        · subst he
          exact ⟨List.mem_cons_self _ _, ha⟩
        · rw [ih] at hm
          exact ⟨List.mem_cons_of_mem _ hm.1,
            fun hc => hm.2 (List.mem_cons_of_mem _ hc)⟩
      · rintro ⟨hx, hs⟩
        rcases List.mem_cons.mp hx with he | hm
        · subst he
          exact List.mem_cons_self _ _
        · by_cases hxa : x = a
          · subst hxa
            exact List.mem_cons_self _ _
          · refine List.mem_cons_of_mem _ ?_
            rw [ih]
            exact ⟨hm, fun hc => (List.mem_cons.mp hc).elim hxa hs⟩

theorem nodup_firstDedupAux [DecidableEq α] :
    ∀ (l seen : List α), (firstDedupAux seen l).Nodup := by
  intro l
  induction l with
  | nil => intro seen; simp [firstDedupAux]
  | cons a l ih =>
    intro seen
    unfold firstDedupAux
    by_cases ha : a ∈ seen
    · rw [if_pos ha]
      exact ih seen
    · rw [if_neg ha]
      rw [List.nodup_cons]
      refine ⟨?_, ih (a :: seen)⟩
      intro hmem
      rw [mem_firstDedupAux] at hmem
      exact hmem.2 (List.mem_cons_self _ _)

theorem mem_firstDedup [DecidableEq α] {l : List α} {x : α} :
    x ∈ firstDedup l ↔ x ∈ l := by
  unfold firstDedup
  rw [mem_firstDedupAux]
  simp

theorem nodup_firstDedup [DecidableEq α] (l : List α) : (firstDedup l).Nodup :=
  nodup_firstDedupAux l []

theorem countP_eq_one_of_nodup [DecidableEq α] :
    ∀ {l : List α}, l.Nodup → ∀ {m : α}, m ∈ l →
      l.countP (fun x => decide (x = m)) = 1 := by
  intro l
  induction l with
  | nil => intro _ m hm; simp at hm
  | cons a l ih =>
    intro hnd m hm
    rw [List.nodup_cons] at hnd
    rw [List.countP_cons]
    rcases List.mem_cons.mp hm with he | hmem
    · subst he
      have h0 : l.countP (fun x => decide (x = m)) = 0 := by
        rw [List.countP_eq_zero]
        intro b hb
        simp only [decide_eq_true_eq]
        intro hbm
        exact hnd.1 (hbm ▸ hb)
      simp [h0]
    · have hma : a ≠ m := fun he2 => hnd.1 (he2 ▸ hmem)
      rw [ih hnd.2 hmem]
      simp [hma]

theorem resolve_triple {R : List RChunk} {m : List Char × Nat × Nat} {t : RChunk}
    (h : resolveMarker R m = some t) : citTriple (citeOf t) = m := by
  have hp := List.find?_some h
  rw [decide_eq_true_eq] at hp
  obtain ⟨md, mp, mc⟩ := m
  obtain ⟨h1, h2, h3⟩ := hp
  simp only [citTriple, citeOf, Prod.mk.injEq]
  exact ⟨h1, h2, h3⟩

theorem countP_resolved (R : List RChunk) (m : List Char × Nat × Nat) :
    ∀ l : List (List Char × Nat × Nat), (∀ x ∈ l, (resolveMarker R x).isSome) →
      ((l.filterMap fun x => (resolveMarker R x).map citeOf).countP
          fun cit => decide (citTriple cit = m)) =
        l.countP (fun x => decide (x = m)) := by
  intro l
  induction l with
  | nil => intro _; simp
  | cons x l ih =>
    intro hall
    have hx := hall x (List.mem_cons_self _ _)
    obtain ⟨t, ht⟩ := Option.isSome_iff_exists.mp hx
    have hfx : (resolveMarker R x).map citeOf = some (citeOf t) := by
      rw [ht]
      rfl
    rw [List.filterMap_cons, hfx]
    rw [List.countP_cons, List.countP_cons,
      ih (fun y hy => hall y (List.mem_cons_of_mem _ hy))]
    rw [resolve_triple ht]

/-- When the Citation Validator does not abstain, its output keeps the
completion as answer, all markers resolve, at least one marker exists,
and the citations are the first-appearance deduplication of the resolved
markers. -/
theorem validate_ok_of_not_abstained {completion : List Char} {retained : List RChunk}
    (h : (validateCitations completion retained).abstained = false) :
    (validateCitations completion retained).answer = completion ∧
    (validateCitations completion retained).citations =
      (firstDedup (citeMarkers completion)).filterMap
        (fun m => (resolveMarker retained m).map citeOf) ∧
    (∀ m ∈ citeMarkers completion, (resolveMarker retained m).isSome) ∧
    citeMarkers completion ≠ [] := by
  unfold validateCitations at h ⊢
  by_cases h1 : completion = abstainText
  · rw [if_pos h1] at h
    simp [abstainOut] at h
  · rw [if_neg h1] at h ⊢
    by_cases h2 : (citeMarkers completion).any fun m => (resolveMarker retained m).isNone
    · rw [if_pos h2] at h
      simp [abstainOut] at h
    · rw [if_neg h2] at h ⊢
      by_cases h3 : (citeMarkers completion).isEmpty
      · rw [if_pos h3] at h
        simp [abstainOut] at h
      · rw [if_neg h3] at h ⊢
        refine ⟨rfl, rfl, ?_, by simpa [List.isEmpty_iff] using h3⟩
        intro m hm
        rw [List.any_eq_true] at h2
        cases hr : resolveMarker retained m with
        | none => exact absurd ⟨m, hm, by simp [hr]⟩ h2
        | some t => simp [hr]

/-- C1: in every non-abstaining response, each citation marker of the
answer text matches exactly one entry of the citations list (by its
`(doc_name, page_number, chunk_index)` triple), and each citations-list
entry's triple occurs among the answer's markers. -/
theorem C1_marker_citation_agreement :
    ∀ (retained : List RChunk) (completion modeUsed modelUsed : List Char)
      (embedMs qdrantMs llmMs : Nat),
    (runPipeline retained completion modeUsed modelUsed embedMs qdrantMs llmMs).abstained
        = false →
    (∀ m ∈ citeMarkers
        (runPipeline retained completion modeUsed modelUsed embedMs qdrantMs llmMs).answer,
      ((runPipeline retained completion modeUsed modelUsed embedMs qdrantMs
          llmMs).citations.countP fun cit => decide (citTriple cit = m)) = 1) ∧
    (∀ cit ∈ (runPipeline retained completion modeUsed modelUsed embedMs qdrantMs
        llmMs).citations,
      citTriple cit ∈ citeMarkers
        (runPipeline retained completion modeUsed modelUsed embedMs qdrantMs llmMs).answer) := by
  intro retained completion modeUsed modelUsed embedMs qdrantMs llmMs habs
  unfold runPipeline at habs ⊢
  by_cases hemp : retained.isEmpty
  · rw [if_pos hemp] at habs
    simp at habs
  · rw [if_neg hemp] at habs ⊢
    dsimp only at habs ⊢
    obtain ⟨hans, hcits, hall, _⟩ := validate_ok_of_not_abstained habs
    rw [hans, hcits]
    constructor
    · intro m hm
      rw [countP_resolved retained m _ (fun x hx => hall x (mem_firstDedup.mp hx))]
      exact countP_eq_one_of_nodup (nodup_firstDedup _) (mem_firstDedup.mpr hm)
    · intro cit hcit
      rcases List.mem_filterMap.mp hcit with ⟨x, hx, hfx⟩
      cases hr : resolveMarker retained x with
      | none =>
        rw [hr] at hfx
        simp at hfx
      | some t =>
        rw [hr] at hfx
        have hfx2 : citeOf t = cit := by simpa using hfx
        rw [← hfx2, resolve_triple hr]
        exact mem_firstDedup.mp hx

/-- C1 witness: a grounded completion with one valid marker against one
retained chunk. -/
theorem C1_marker_citation_agreement_witness :
    (∀ m ∈ citeMarkers
        (runPipeline
          [⟨"c1".toList, "a.pdf".toList, 2, 1, 1, "refund within 30 days".toList⟩]
          ("Refunds take 30 days [DOC=a.pdf|PAGE=2|CHUNK=1]".toList)
          ("fast".toList) ("phi3".toList) 3 4 5).answer,
      ((runPipeline
          [⟨"c1".toList, "a.pdf".toList, 2, 1, 1, "refund within 30 days".toList⟩]
          ("Refunds take 30 days [DOC=a.pdf|PAGE=2|CHUNK=1]".toList)
          ("fast".toList) ("phi3".toList) 3 4 5).citations.countP
        fun cit => decide (citTriple cit = m)) = 1) ∧
    (∀ cit ∈ (runPipeline
        [⟨"c1".toList, "a.pdf".toList, 2, 1, 1, "refund within 30 days".toList⟩]
        ("Refunds take 30 days [DOC=a.pdf|PAGE=2|CHUNK=1]".toList)
        ("fast".toList) ("phi3".toList) 3 4 5).citations,
      citTriple cit ∈ citeMarkers
        (runPipeline
          [⟨"c1".toList, "a.pdf".toList, 2, 1, 1, "refund within 30 days".toList⟩]
          ("Refunds take 30 days [DOC=a.pdf|PAGE=2|CHUNK=1]".toList)
          ("fast".toList) ("phi3".toList) 3 4 5).answer) :=
  C1_marker_citation_agreement _ _ _ _ _ _ _ (by decide)

/-- C2: every abstaining response has an empty citations list and the
fixed abstention sentence, verbatim, as its answer. -/
theorem C2_abstention_is_fixed :
    ∀ (retained : List RChunk) (completion modeUsed modelUsed : List Char)
      (embedMs qdrantMs llmMs : Nat),
    (runPipeline retained completion modeUsed modelUsed embedMs qdrantMs llmMs).abstained
        = true →
    (runPipeline retained completion modeUsed modelUsed embedMs qdrantMs llmMs).citations
        = [] ∧
    (runPipeline retained completion modeUsed modelUsed embedMs qdrantMs llmMs).answer
        = "I don't know based on the provided documents.".toList := by
  intro retained completion modeUsed modelUsed embedMs qdrantMs llmMs habs
  unfold runPipeline at habs ⊢
  by_cases hemp : retained.isEmpty
  · rw [if_pos hemp]
    exact ⟨rfl, rfl⟩
  · rw [if_neg hemp] at habs ⊢
    dsimp only at habs ⊢
    unfold validateCitations at habs ⊢
    by_cases h1 : completion = abstainText
    · rw [if_pos h1]
      exact ⟨rfl, rfl⟩
    · rw [if_neg h1] at habs ⊢
      by_cases h2 : (citeMarkers completion).any fun m => (resolveMarker retained m).isNone
      · rw [if_pos h2]
        exact ⟨rfl, rfl⟩
      · rw [if_neg h2] at habs ⊢
        by_cases h3 : (citeMarkers completion).isEmpty
        · rw [if_pos h3]
          exact ⟨rfl, rfl⟩
        · rw [if_neg h3] at habs
          simp at habs

/-- C2 witness: the empty retrieval result abstains with the fixed
sentence and no citations. -/
theorem C2_abstention_is_fixed_witness :
    (runPipeline [] ("anything".toList) ("fast".toList) ("phi3".toList) 1 2 0).citations
        = [] ∧
    (runPipeline [] ("anything".toList) ("fast".toList) ("phi3".toList) 1 2 0).answer
        = "I don't know based on the provided documents.".toList :=
  C2_abstention_is_fixed _ _ _ _ _ _ _ (by decide)

/-- C3: a completion containing any marker that fails to resolve to a
retained chunk, or containing no resolving marker at all while differing
from the fixed abstention sentence, is downgraded to abstention: fixed
text, no citations, abstained flag set - no matter how many valid markers
also appeared. -/
theorem C3_invalid_citation_downgrades :
    ∀ (retained : List RChunk) (completion modeUsed modelUsed : List Char)
      (embedMs qdrantMs llmMs : Nat),
    ((∃ m ∈ citeMarkers completion, resolveMarker retained m = none) ∨
      ((¬ ∃ m ∈ citeMarkers completion, (resolveMarker retained m).isSome) ∧
        completion ≠ abstainText)) →
    (runPipeline retained completion modeUsed modelUsed embedMs qdrantMs llmMs).abstained
        = true ∧
    (runPipeline retained completion modeUsed modelUsed embedMs qdrantMs llmMs).answer
        = abstainText ∧
    (runPipeline retained completion modeUsed modelUsed embedMs qdrantMs llmMs).citations
        = [] := by
  intro retained completion modeUsed modelUsed embedMs qdrantMs llmMs hyp
  unfold runPipeline
  by_cases hemp : retained.isEmpty
  · rw [if_pos hemp]
    exact ⟨rfl, rfl, rfl⟩
  · rw [if_neg hemp]
    dsimp only
    suffices hv : validateCitations completion retained = abstainOut by
      rw [hv]
      exact ⟨rfl, rfl, rfl⟩
    unfold validateCitations
    by_cases h1 : completion = abstainText
    · rw [if_pos h1]
    · rw [if_neg h1]
      rcases hyp with ⟨m, hm, hr⟩ | ⟨hnone, _⟩
      · rw [if_pos (List.any_eq_true.mpr ⟨m, hm, by simp [hr]⟩)]
      · by_cases h2 : (citeMarkers completion).any fun m => (resolveMarker retained m).isNone
        · rw [if_pos h2]
        · rw [if_neg h2]
          have hms : (citeMarkers completion).isEmpty := by
            rw [List.isEmpty_iff]
            by_contra hne2
            obtain ⟨m, hm⟩ := List.exists_mem_of_ne_nil _ hne2
            cases hr : resolveMarker retained m with
            | some t => exact hnone ⟨m, hm, by simp [hr]⟩
            | none => exact h2 (List.any_eq_true.mpr ⟨m, hm, by simp [hr]⟩)
          rw [if_pos hms]

/-- C3 witness: one valid and one fabricated marker; the response is the
abstention triple. -/
theorem C3_invalid_citation_downgrades_witness :
    (runPipeline
      [⟨"c1".toList, "a.pdf".toList, 2, 1, 1, "refund within 30 days".toList⟩]
      ("Yes [DOC=a.pdf|PAGE=2|CHUNK=1] and [DOC=b.pdf|PAGE=9|CHUNK=9]".toList)
      ("fast".toList) ("phi3".toList) 3 4 5).abstained = true ∧
    (runPipeline
      [⟨"c1".toList, "a.pdf".toList, 2, 1, 1, "refund within 30 days".toList⟩]
      ("Yes [DOC=a.pdf|PAGE=2|CHUNK=1] and [DOC=b.pdf|PAGE=9|CHUNK=9]".toList)
      ("fast".toList) ("phi3".toList) 3 4 5).answer = abstainText ∧
    (runPipeline
      [⟨"c1".toList, "a.pdf".toList, 2, 1, 1, "refund within 30 days".toList⟩]
      ("Yes [DOC=a.pdf|PAGE=2|CHUNK=1] and [DOC=b.pdf|PAGE=9|CHUNK=9]".toList)
      ("fast".toList) ("phi3".toList) 3 4 5).citations = [] :=
  C3_invalid_citation_downgrades _ _ _ _ _ _ _ (Or.inl (by decide))

/-- C5: an empty retrieval result short-circuits at the Evidence Gate:
the response abstains, reports zero language-model latency, and does not
depend on the completion at all (the model is never consulted). -/
theorem C5_evidence_gate_short_circuit :
    ∀ (completion completion' modeUsed modelUsed : List Char)
      (embedMs qdrantMs llmMs : Nat),
    (runPipeline [] completion modeUsed modelUsed embedMs qdrantMs llmMs).abstained
        = true ∧
    (runPipeline [] completion modeUsed modelUsed embedMs qdrantMs llmMs).latency.llm_ms
        = 0 ∧
    runPipeline [] completion modeUsed modelUsed embedMs qdrantMs llmMs =
      runPipeline [] completion' modeUsed modelUsed embedMs qdrantMs llmMs := by
  intro completion completion' modeUsed modelUsed embedMs qdrantMs llmMs
  unfold runPipeline
  exact ⟨rfl, rfl, rfl⟩

/-- C6: the Retriever fails with `InvalidInput` exactly on the empty
question; with a non-empty question it returns the threshold-filtered
neighbours (the empty retrieval result is a success, not an error) and
propagates a vector-index failure as `UpstreamUnavailable`, never as an
empty result. -/
theorem C6_retriever_edge_cases :
    ∀ (question : List Char) (outcome : SearchOutcome) (minScore : ℚ)
      (rs : List RChunk),
    (retrieve question outcome minScore = .error .invalidInput ↔ question = []) ∧
    (question ≠ [] →
      retrieve question (SearchOutcome.results rs) minScore =
        .ok (rs.filter fun r => decide (minScore ≤ r.score))) ∧
    (question ≠ [] →
      retrieve question (SearchOutcome.results []) minScore = .ok []) ∧
    (question ≠ [] →
      retrieve question SearchOutcome.failure minScore =
        .error .upstreamUnavailable) := by
  intro question outcome minScore rs
  have hcond : ∀ hq : question ≠ [], question.isEmpty = false := by
    intro hq
    simpa [List.isEmpty_iff] using hq
  refine ⟨⟨?_, ?_⟩, ?_, ?_, ?_⟩
  · intro h
    unfold retrieve at h
    by_cases hq : question.isEmpty
    · exact List.isEmpty_iff.mp hq
    · rw [if_neg hq] at h
      cases outcome with
      | failure => simp at h
      | results rs2 => simp at h
  · intro h
    unfold retrieve
    rw [if_pos (by simp [h])]
  · intro hq
    unfold retrieve
    rw [if_neg (by simp [hcond hq])]
  · intro hq
    unfold retrieve
    rw [if_neg (by simp [hcond hq])]
    simp
  · intro hq
    unfold retrieve
    rw [if_neg (by simp [hcond hq])]

/-- C6 witness: the three behaviours at concrete inputs. -/
theorem C6_retriever_edge_cases_witness :
    (retrieve [] SearchOutcome.failure 0 = .error .invalidInput ↔
      ([] : List Char) = []) ∧
    retrieve ("q".toList) (SearchOutcome.results []) 0 = .ok [] ∧
    retrieve ("q".toList) SearchOutcome.failure 0 = .error .upstreamUnavailable :=
  ⟨(C6_retriever_edge_cases [] SearchOutcome.failure 0 []).1,
   (C6_retriever_edge_cases ("q".toList) SearchOutcome.failure 0 []).2.2.1 (by decide),
   (C6_retriever_edge_cases ("q".toList) SearchOutcome.failure 0 []).2.2.2 (by decide)⟩

/-- C7: the `request` helper yields the parsed body for 2xx responses
with valid JSON, the empty-object marker for an empty 2xx body, and in
every other case an `ApiError` - status 0 with a descriptive message on
network failure, the HTTP status with the (trimmed) error body or an
`HTTP error <status>` fallback on non-2xx, and the status with an
`Invalid JSON` message on an unparseable non-empty 2xx body; being total
into `Except ApiErrorE`, it can produce no other kind of failure. -/
theorem C7_request_behavior :
    ∀ (T : Type) (parse : List Char → Option T) (path e statusText : List Char)
      (status : Nat) (bodyRead : Option (List Char)) (v : T),
    (request parse path true (FetchOutcome.netError e) =
      .error ⟨0, "Network error calling ".toList ++ path ++ ": ".toList ++ e, none⟩) ∧
    (¬(200 ≤ status ∧ status ≤ 299) →
      request parse path true (FetchOutcome.resp status statusText bodyRead) =
        .error ⟨status,
          if (jsTrim (safeReadText bodyRead)).isEmpty then
            jsTrim ("HTTP error ".toList ++ natToChars status ++ [' '] ++ statusText)
          else jsTrim (safeReadText bodyRead),
          some (safeReadText bodyRead)⟩) ∧
    (200 ≤ status → status ≤ 299 → safeReadText bodyRead = [] →
      request parse path true (FetchOutcome.resp status statusText bodyRead) =
        .ok ReqOk.emptyObj) ∧
    (200 ≤ status → status ≤ 299 → safeReadText bodyRead ≠ [] →
      parse (safeReadText bodyRead) = some v →
      request parse path true (FetchOutcome.resp status statusText bodyRead) =
        .ok (ReqOk.parsed v)) ∧
    (200 ≤ status → status ≤ 299 → safeReadText bodyRead ≠ [] →
      parse (safeReadText bodyRead) = none →
      request parse path true (FetchOutcome.resp status statusText bodyRead) =
        .error ⟨status, "Invalid JSON from ".toList ++ path,
          some ((safeReadText bodyRead).take 2000)⟩) := by
  intro T parse path e statusText status bodyRead v
  refine ⟨rfl, ?_, ?_, ?_, ?_⟩
  · intro hno
    unfold request
    dsimp only
    rw [if_neg hno]
  · intro h1 h2 hbody
    unfold request
    dsimp only
    rw [if_pos ⟨h1, h2⟩, if_pos rfl, if_pos (by simp [hbody])]
  · intro h1 h2 hbody hparse
    unfold request
    dsimp only
    rw [if_pos ⟨h1, h2⟩, if_pos rfl,
      if_neg (by simpa [List.isEmpty_iff] using hbody), hparse]
  · intro h1 h2 hbody hparse
    unfold request
    dsimp only
    rw [if_pos ⟨h1, h2⟩, if_pos rfl,
      if_neg (by simpa [List.isEmpty_iff] using hbody), hparse]

/-- C7 witness: the five behaviours at concrete fetch outcomes, with a
parse function accepting exactly the body text `7`. -/
theorem C7_request_behavior_witness :
    (request (fun s => if s = "7".toList then some 7 else none) ("/chat".toList)
        true (FetchOutcome.netError ("down".toList)) =
      .error ⟨0, "Network error calling ".toList ++ "/chat".toList ++ ": ".toList ++
        "down".toList, none⟩) ∧
    (request (fun s => if s = "7".toList then some 7 else none) ("/chat".toList)
        true (FetchOutcome.resp 500 ("Server Error".toList) (some (" boom ".toList))) =
      .error ⟨500,
        if (jsTrim (safeReadText (some (" boom ".toList)))).isEmpty then
          jsTrim ("HTTP error ".toList ++ natToChars 500 ++ [' '] ++ "Server Error".toList)
        else jsTrim (safeReadText (some (" boom ".toList))),
        some (safeReadText (some (" boom ".toList)))⟩) ∧
    (request (fun s => if s = "7".toList then some 7 else none) ("/chat".toList)
        true (FetchOutcome.resp 204 [] none) = .ok ReqOk.emptyObj) ∧
    (request (fun s => if s = "7".toList then some 7 else none) ("/chat".toList)
        true (FetchOutcome.resp 200 ("OK".toList) (some ("7".toList))) =
      .ok (ReqOk.parsed 7)) ∧
    (request (fun s => if s = "7".toList then some 7 else none) ("/chat".toList)
        true (FetchOutcome.resp 200 ("OK".toList) (some ("oops".toList))) =
      .error ⟨200, "Invalid JSON from ".toList ++ "/chat".toList,
        some (("oops".toList).take 2000)⟩) := by
  refine ⟨(C7_request_behavior Nat (fun s => if s = "7".toList then some 7 else none)
      ("/chat".toList) ("down".toList) [] 0 none 7).1,
    (C7_request_behavior _ _ _ ("down".toList) ("Server Error".toList) 500
      (some (" boom ".toList)) 7).2.1 (by decide),
    (C7_request_behavior _ _ _ ("down".toList) [] 204 none 7).2.2.1
      (by decide) (by decide) (by decide),
    (C7_request_behavior _ _ _ ("down".toList) ("OK".toList) 200
      (some ("7".toList)) 7).2.2.2.1 (by decide) (by decide) (by decide) (by decide),
    (C7_request_behavior _ _ _ ("down".toList) ("OK".toList) 200
      (some ("oops".toList)) 7).2.2.2.2 (by decide) (by decide) (by decide) (by decide)⟩

/-- C9: the chat input only ever sends the trimmed question, only when it
is non-empty and no send is in flight and the control is enabled; in
particular the Retriever's empty-question `InvalidInput` branch is
unreachable from this caller. -/
theorem C9_no_empty_question_sent :
    ∀ (input q : List Char) (sending disabled : Bool),
    handleSubmit input sending disabled = some q →
    q = jsTrim input ∧ q ≠ [] ∧ sending = false ∧ disabled = false ∧
    (∀ (outcome : SearchOutcome) (minScore : ℚ),
      retrieve q outcome minScore ≠ .error .invalidInput) := by
  intro input q sending disabled h
  unfold handleSubmit at h
  split at h
  · simp at h
  · rename_i hcond
    rw [Option.some.injEq] at h
    subst h
    simp only [Bool.or_eq_true, not_or] at hcond
    obtain ⟨⟨hts, hsend⟩, hdis⟩ := hcond
    have htne : jsTrim input ≠ [] := fun he => hts (by simp [he])
    refine ⟨rfl, htne, by simpa using hsend, by simpa using hdis, ?_⟩
    intro outcome minScore
    unfold retrieve
    rw [if_neg (by simpa [List.isEmpty_iff] using htne)]
    cases outcome with
    | failure => simp
    | results rs => simp

/-- C9 witness: a padded question is sent trimmed, and the retriever
cannot reject it as empty. -/
theorem C9_no_empty_question_sent_witness :
    "hi".toList = jsTrim ("  hi  ".toList) ∧ "hi".toList ≠ [] ∧
      false = false ∧ false = false ∧
    (∀ (outcome : SearchOutcome) (minScore : ℚ),
      retrieve ("hi".toList) outcome minScore ≠ .error .invalidInput) :=
  C9_no_empty_question_sent ("  hi  ".toList) ("hi".toList) false false (by decide)

/-- C10: with a non-empty card list the flashcard index stays in range
and `next`/`prev` are inverse rotations; with no cards both are
no-ops. -/
theorem C10_flashcard_navigation :
    (∀ len i : Nat, 0 < len → i < len →
      nextCard len i < len ∧ prevCard len i < len ∧
      prevCard len (nextCard len i) = i ∧ nextCard len (prevCard len i) = i) ∧
    (∀ i : Nat, nextCard 0 i = i ∧ prevCard 0 i = i) := by
  constructor
  · intro len i hlen hi
    have hl0 : len ≠ 0 := Nat.pos_iff_ne_zero.mp hlen
    unfold nextCard prevCard
    rw [if_neg hl0, if_neg hl0, if_neg hl0, if_neg hl0]
    refine ⟨Nat.mod_lt _ hlen, Nat.mod_lt _ hlen, ?_, ?_⟩
    · by_cases he : i + 1 = len
      · rw [he, Nat.mod_self]
        have h1 : (0 + len - 1) % len = 0 + len - 1 := Nat.mod_eq_of_lt (by omega)
        rw [h1]
        omega
      · have hlt : i + 1 < len := by omega
        rw [Nat.mod_eq_of_lt hlt]
        have h2 : i + 1 + len - 1 = i + len := by omega
        rw [h2, Nat.add_mod_right, Nat.mod_eq_of_lt hi]
    · by_cases he : i = 0
      · subst he
        have h1 : (0 + len - 1) % len = 0 + len - 1 := Nat.mod_eq_of_lt (by omega)
        rw [h1]
        have h2 : 0 + len - 1 + 1 = len := by omega
        rw [h2, Nat.mod_self]
      · have h1 : i + len - 1 = (i - 1) + len := by omega
        rw [h1, Nat.add_mod_right, Nat.mod_eq_of_lt (by omega : i - 1 < len)]
        have h2 : i - 1 + 1 = i := by omega
        rw [h2, Nat.mod_eq_of_lt hi]
  · intro i
    unfold nextCard prevCard
    simp

/-- C10 witness: the round trips at five cards, index three, and the
no-ops at zero cards. -/
theorem C10_flashcard_navigation_witness :
    (nextCard 5 3 < 5 ∧ prevCard 5 3 < 5 ∧
      prevCard 5 (nextCard 5 3) = 3 ∧ nextCard 5 (prevCard 5 3) = 3) ∧
    (nextCard 0 7 = 7 ∧ prevCard 0 7 = 7) :=
  ⟨C10_flashcard_navigation.1 5 3 (by decide) (by decide),
   C10_flashcard_navigation.2 7⟩

end Workdesk
